import Mathlib

/-!
Verification of the hybrid retrieval engine of the NASA space-biology
publication search service (`search_engine.py`, `redis_cache.py`).

The Python code is shallowly embedded:
* floats are modelled as rationals (`ℚ`);
* Python's built-in stable `sorted` is modelled by the stable insertion
  sort `pySorted`;
* Python's `round(x, n)` (round half to even) is modelled by `pyRound4`;
* `str.strip()` is modelled by `pyStrip`;
* the external stores (PostgreSQL, Redis, Neo4j) are modelled as abstract
  tables / clients, while the in-process Python logic is translated
  line by line.
-/

/-! ## Python's stable `sorted`

`sorted(xs, key=..., reverse=True)` is a stable sort: elements whose keys
compare equal keep their original relative order (`reverse=True` does not
reverse ties).  `insertS`/`pySorted` is a stable insertion sort:
`insertS` places the new element before the first existing element `b`
with `le a b`, so an element coming from further left ends up before any
element it ties with. -/

def insertS {α : Type} (le : α → α → Bool) (a : α) : List α → List α
  | [] => [a]
  | b :: l => if le a b then a :: b :: l else b :: insertS le a l

def pySorted {α : Type} (le : α → α → Bool) : List α → List α
  | [] => []
  | a :: l => insertS le a (pySorted le l)

theorem insertS_perm {α : Type} (le : α → α → Bool) (a : α) (l : List α) :
    List.Perm (insertS le a l) (a :: l) := by
  induction l with
  | nil => simp [insertS]
  | cons b t ih =>
    simp only [insertS]
    by_cases h : le a b = true
    · simp [h]
    · simp only [h, if_false]
      exact (ih.cons b).trans (List.Perm.swap a b t)

theorem pySorted_perm {α : Type} (le : α → α → Bool) (l : List α) :
    List.Perm (pySorted le l) l := by
  induction l with
  | nil => simp [pySorted]
  | cons a t ih =>
    exact (insertS_perm le a (pySorted le t)).trans (ih.cons a)

theorem mem_insertS {α : Type} {le : α → α → Bool} {a x : α} {l : List α} :
    x ∈ insertS le a l ↔ x = a ∨ x ∈ l := by
  rw [(insertS_perm le a l).mem_iff, List.mem_cons]

theorem pairwise_insertS {α : Type} {le : α → α → Bool}
    (trans : ∀ a b c, le a b = true → le b c = true → le a c = true)
    (total : ∀ a b, (le a b || le b a) = true)
    {a : α} {l : List α} (h : l.Pairwise (le · ·)) :
    (insertS le a l).Pairwise (le · ·) := by
  induction l with
  | nil => simp [insertS]
  | cons b t ih =>
    rcases List.pairwise_cons.mp h with ⟨hb, ht⟩
    by_cases hab : le a b = true
    · simp only [insertS, hab, if_true]
      refine List.pairwise_cons.mpr ⟨?_, h⟩
      intro x hx
      rcases List.mem_cons.mp hx with rfl | hx
      · exact hab
      · exact trans a b x hab (hb x hx)
    · have hba : le b a = true := by
        rcases Bool.or_eq_true _ _ |>.mp (total a b) with h' | h'
        · exact absurd h' hab
        · exact h'
      simp only [insertS, hab, if_false]
      refine List.pairwise_cons.mpr ⟨?_, ih ht⟩
      intro x hx
      rcases mem_insertS.mp hx with rfl | hx
      · exact hba
      · exact hb x hx

theorem pairwise_pySorted {α : Type} {le : α → α → Bool}
    (trans : ∀ a b c, le a b = true → le b c = true → le a c = true)
    (total : ∀ a b, (le a b || le b a) = true) (l : List α) :
    (pySorted le l).Pairwise (le · ·) := by
  induction l with
  | nil => simp [pySorted]
  | cons a t ih => exact pairwise_insertS trans total ih

/-- Inserting an element leaves the previous elements' relative order
unchanged: the old list is a sublist of the new one. -/
theorem sublist_insertS {α : Type} (le : α → α → Bool) (a : α) (l : List α) :
    List.Sublist l (insertS le a l) := by
  induction l with
  | nil => simp [insertS]
  | cons b t ih =>
    by_cases h : le a b = true
    · simp only [insertS, h, if_true]
      exact List.sublist_cons_self a (b :: t)
    · simp only [insertS, h, if_false]
      exact ih.cons₂ b

/-- If `b` is already in the list and `le a b` holds, then inserting `a`
places it (weakly) before `b`. -/
theorem pair_sublist_insertS {α : Type} {le : α → α → Bool} {a b : α} {l : List α}
    (hb : b ∈ l) (hab : le a b = true) : List.Sublist [a, b] (insertS le a l) := by
  induction l with
  | nil => cases hb
  | cons c t ih =>
    by_cases h : le a c = true
    · simp only [insertS, h, if_true]
      exact List.Sublist.cons₂ a (List.singleton_sublist.mpr hb)
    · rcases List.mem_cons.mp hb with rfl | hb'
      · exact absurd hab h
      · simp only [insertS, h, if_false]
        exact (ih hb').cons c

/-- Stability of `pySorted`: a pair already in "correct" order (`le a b`)
keeps its relative order through the sort.  In particular, elements whose
keys tie stay in their original order, exactly as with Python's
`sorted`. -/
theorem pair_sublist_pySorted {α : Type} {le : α → α → Bool} {a b : α} {l : List α}
    (h : List.Sublist [a, b] l) (hab : le a b = true) : List.Sublist [a, b] (pySorted le l) := by
  induction l with
  | nil => cases h
  | cons c t ih =>
    cases h with
    | cons c h' =>
      exact (ih h').trans (sublist_insertS le c (pySorted le t))
    | cons₂ c h' =>
      have hb : b ∈ pySorted le t :=
        ((pySorted_perm le t).mem_iff).mpr (List.singleton_sublist.mp h')
      exact pair_sublist_insertS hb hab

theorem length_pySorted {α : Type} (le : α → α → Bool) (l : List α) :
    (pySorted le l).length = l.length :=
  (pySorted_perm le l).length_eq

/-! ## Python's `round(x, 4)` and `str.strip()`

Python's `round` rounds half to even ("banker's rounding").  The float
arithmetic of the source is modelled over `ℚ`, so `round(x, 4)` becomes
`pyRound4`. -/

def pyRound (q : ℚ) : ℤ :=
  if q - ⌊q⌋ < 1/2 then ⌊q⌋
  else if 1/2 < q - ⌊q⌋ then ⌊q⌋ + 1
  else if 2 ∣ ⌊q⌋ then ⌊q⌋ else ⌊q⌋ + 1

def pyRound4 (q : ℚ) : ℚ := (pyRound (q * 10000) : ℚ) / 10000

theorem pyRound_le (q : ℚ) : pyRound q ≤ ⌊q⌋ + 1 := by
  unfold pyRound
  split_ifs <;> omega

theorem le_pyRound (q : ℚ) : ⌊q⌋ ≤ pyRound q := by
  unfold pyRound
  split_ifs <;> omega

theorem pyRound_mono {a b : ℚ} (h : a ≤ b) : pyRound a ≤ pyRound b := by
  rcases lt_or_eq_of_le (Int.floor_le_floor h) with hf | hf
  · calc pyRound a ≤ ⌊a⌋ + 1 := pyRound_le a
      _ ≤ ⌊b⌋ := by omega
      _ ≤ pyRound b := le_pyRound b
  · have hr : a - ⌊a⌋ ≤ b - ⌊b⌋ := by
      rw [← hf]
      have : (⌊a⌋ : ℚ) ≤ (⌊a⌋ : ℚ) := le_refl _
      linarith
    unfold pyRound
    split_ifs with h1 h2 h3 h4 h5 h6 h7 h8 h9 h10 h11 h12 <;>
      first
        | omega
        | (exfalso; rw [hf] at *; first | omega | linarith)

theorem pyRound4_mono {a b : ℚ} (h : a ≤ b) : pyRound4 a ≤ pyRound4 b := by
  unfold pyRound4
  have h1 : a * 10000 ≤ b * 10000 := by linarith
  have h2 : (pyRound (a * 10000) : ℚ) ≤ (pyRound (b * 10000) : ℚ) := by
    exact_mod_cast pyRound_mono h1
  linarith

/-- Python's `str.strip()`: remove leading and trailing whitespace. -/
def pyStrip (s : String) : String :=
  ⟨((s.data.dropWhile Char.isWhitespace).reverse.dropWhile Char.isWhitespace).reverse⟩

/-! ## Data model of `search_engine.py`

`SearchResult` keeps the fields that the search logic reads or writes
(`pmcid`, `score`, `search_method`, `match_type` and the three graph
enrichment lists).  The purely decorative metadata columns (title,
abstract excerpt, journal, authors, snippet, ...) are carried by the
original dataclass but never inspected by any control flow; they are
omitted from the embedding. -/

structure SearchResult where
  pmcid : String
  score : ℚ
  search_method : String
  match_type : Option String := none
  organisms : Option (List String) := none
  phenomena : Option (List String) := none
  platforms : Option (List String) := none
deriving DecidableEq, Repr

inductive SearchMode where
  | semantic
  | fulltext
  | hybrid
deriving DecidableEq, Repr

def SearchMode.val : SearchMode → String
  | .semantic => "semantic"
  | .fulltext => "fulltext"
  | .hybrid => "hybrid"

/-- One row of the semantic (pgvector) candidate set for the query at
hand: the publication's identifier and its cosine similarity
`1 - (embedding <=> query_embedding)`. -/
structure SemRow where
  pmcid : String
  similarity : ℚ
deriving DecidableEq, Repr

/-- One row of the full-text candidate set for the query at hand: the
publication's identifier and its `ts_rank` score.  Only rows matching the
`tsquery` are in the table (the SQL `WHERE` clause). -/
structure FtRow where
  pmcid : String
  rank : ℚ
deriving DecidableEq, Repr

/-- The external PostgreSQL store, abstracted per query: the two
candidate tables already reflect the `tsquery` match predicate and the
optional year/journal filters, which are pushed to SQL verbatim and never
examined by the Python code. -/
structure Db where
  semTable : List SemRow
  ftTable : List FtRow

/-- A call issued to the store, with the `LIMIT` and `OFFSET` bound into
the SQL text (`sql += "... LIMIT :limit OFFSET :offset"`). -/
inductive StoreCall where
  | semanticQuery (fetchLimit offset : Nat)
  | fulltextQuery (fetchLimit offset : Nat)
deriving DecidableEq, Repr

/-- `ORDER BY ... similarity ... DESC` -/
def bySimilarityDesc (a b : SemRow) : Bool := decide (b.similarity ≤ a.similarity)

/-- `ORDER BY rank DESC` -/
def byRankDesc (a b : FtRow) : Bool := decide (b.rank ≤ a.rank)

/-- Construction of a semantic `SearchResult` row
(`score=round(row.similarity, 4)`, threshold-banded `match_type`). -/
def semRowToResult (r : SemRow) : SearchResult :=
  { pmcid := r.pmcid
    score := pyRound4 r.similarity
    search_method := "semantic"
    match_type := some (if r.similarity < 7/10 then "similar" else "highly_similar") }

/-- Construction of a full-text `SearchResult` row
(`score=round(float(row.rank), 4)`, constant `match_type`). -/
def ftRowToResult (r : FtRow) : SearchResult :=
  { pmcid := r.pmcid
    score := pyRound4 r.rank
    search_method := "fulltext"
    match_type := some "exact_match" }

/-- `HybridSearchEngine._semantic_search`: the SQL keeps rows with
`similarity > min_similarity`, orders by similarity descending, then
applies `OFFSET`/`LIMIT`; each returned row becomes a `SearchResult`.
The issued store call is recorded. -/
def semanticSearch (db : Db) (limit offset : Nat) (min_similarity : ℚ) :
    List SearchResult × List StoreCall :=
  (((((pySorted bySimilarityDesc
        (db.semTable.filter (fun r => decide (min_similarity < r.similarity)))).drop
          offset).take limit).map semRowToResult),
   [.semanticQuery limit offset])

/-- `HybridSearchEngine._fulltext_search`: the SQL orders the matching
rows by `rank` descending, then applies `OFFSET`/`LIMIT`. -/
def fulltextSearch (db : Db) (limit offset : Nat) :
    List SearchResult × List StoreCall :=
  ((((pySorted byRankDesc db.ftTable).drop offset).take limit).map ftRowToResult,
   [.fulltextQuery limit offset])

/-! ## Reciprocal Rank Fusion (`HybridSearchEngine._hybrid_search`) -/

/-- One `for rank, result in enumerate(results, 1)` loop updating the
`rrf_scores` dict (modelled as a total function with default `0`):
`rrf_scores[pmcid] = rrf_scores.get(pmcid, 0) + 1 / (k + rank)` with
`k = 60`. -/
def rrfAdd (scores : String → ℚ) (ranked : List (Nat × SearchResult)) : String → ℚ :=
  ranked.foldl
    (fun sc p => fun d => if d = p.2.pmcid then sc d + 1 / (60 + (p.1 : ℚ)) else sc d)
    scores

/-- The full `rrf_scores` dict after both loops (semantic first, then
fulltext), as a function from document identifier to fused score. -/
def rrfScores (semantic_results fulltext_results : List SearchResult) : String → ℚ :=
  rrfAdd (rrfAdd (fun _ => 0) (semantic_results.enumFrom 1)) (fulltext_results.enumFrom 1)

/-- The `merged` dict build-up: iterate `semantic_results + fulltext_results`,
keep the first occurrence of each `pmcid`, and overwrite its `score` with
the rounded RRF score and its `search_method` with `"hybrid"`.  Python
dicts preserve insertion order, so the result is the first-occurrence
subsequence. -/
def mergeDedup (rrf : String → ℚ) : List SearchResult → List String → List SearchResult
  | [], _ => []
  | r :: rs, seen =>
    if r.pmcid ∈ seen then mergeDedup rrf rs seen
    else { r with score := pyRound4 (rrf r.pmcid), search_method := "hybrid" } ::
      mergeDedup rrf rs (r.pmcid :: seen)

/-- `sorted(merged.values(), key=lambda x: x.score, reverse=True)` -/
def byScoreDesc (a b : SearchResult) : Bool := decide (b.score ≤ a.score)

/-- RRF fusion of the two ranked lists: score, dedup, stable sort. -/
def hybridFuse (semantic_results fulltext_results : List SearchResult) : List SearchResult :=
  pySorted byScoreDesc
    (mergeDedup (rrfScores semantic_results fulltext_results)
      (semantic_results ++ fulltext_results) [])

/-- `HybridSearchEngine._hybrid_search`: fetch both lists at `limit * 2`
with offset `0`, fuse, then slice `[offset : offset + limit]`. -/
def hybridSearch (db : Db) (limit offset : Nat) (min_similarity : ℚ) :
    List SearchResult × List StoreCall :=
  let sem := semanticSearch db (limit * 2) 0 min_similarity
  let ft := fulltextSearch db (limit * 2) 0
  (((hybridFuse sem.1 ft.1).drop offset).take limit, sem.2 ++ ft.2)

/-! ## The `search` facade -/

structure SearchResponse where
  query : String
  mode : String
  results : List SearchResult
  total_count : Nat
  page : Nat
  total_pages : Nat
  has_next : Bool
deriving Repr

/-- `HybridSearchEngine.search`: validate the query
(`if not query or len(query.strip()) < 2`), dispatch on the mode, then
compute the pagination fields from the already-sliced result list. -/
def search (db : Db) (query : String) (mode : SearchMode) (limit offset : Nat)
    (min_similarity : ℚ) : SearchResponse × List StoreCall :=
  if query = "" ∨ (pyStrip query).length < 2 then
    ({ query := query, mode := mode.val, results := [], total_count := 0,
       page := 1, total_pages := 0, has_next := false }, [])
  else
    let q := pyStrip query
    let out :=
      match mode with
      | .semantic => semanticSearch db limit offset min_similarity
      | .fulltext => fulltextSearch db limit offset
      | .hybrid => hybridSearch db limit offset min_similarity
    let total_count := out.1.length
    ({ query := q, mode := mode.val, results := out.1, total_count := total_count,
       page := offset / limit + 1,
       total_pages := (total_count + limit - 1) / limit,
       has_next := decide (offset + limit < total_count) }, out.2)

/-! ## `search_with_graph_context`

The Neo4j store is abstracted as a fallible lookup from a document
identifier to its related-entity lists (the Cypher query's
`collect(DISTINCT ...)` aggregates); `none` models `session.run(...)`
returning no row (`single()` falsy). -/

structure GraphInfo where
  organisms : List String
  phenomena : List String
  platforms : List String
deriving DecidableEq, Repr

structure Neo4jError where
  msg : String
deriving DecidableEq, Repr

/-- The `for result in search_response["results"]` enrichment loop.  The
loop body runs one Cypher query per result inside a `try/finally` with no
`except` clause: an error escapes the loop (after the `finally` closes
the client) and aborts the whole call. -/
def enrichResults (neo : String → Except Neo4jError (Option GraphInfo)) :
    List SearchResult → Except Neo4jError (List SearchResult)
  | [] => .ok []
  | r :: rs =>
    match neo r.pmcid with
    | .error e => .error e
    | .ok none =>
      match enrichResults neo rs with
      | .error e => .error e
      | .ok rest => .ok (r :: rest)
    | .ok (some g) =>
      match enrichResults neo rs with
      | .error e => .error e
      | .ok rest =>
        .ok ({ r with organisms := some g.organisms, phenomena := some g.phenomena,
                      platforms := some g.platforms } :: rest)

/-- `HybridSearchEngine.search_with_graph_context`: run `search` with the
default `offset=0` and `min_similarity=0.3`, return it unchanged when
`include_related` is false, otherwise enrich every result from the graph
store.  A raised `Neo4jError` is the `.error` case. -/
def search_with_graph_context (db : Db) (neo : String → Except Neo4jError (Option GraphInfo))
    (query : String) (mode : SearchMode) (limit : Nat) (include_related : Bool) :
    Except Neo4jError SearchResponse :=
  let resp := (search db query mode limit 0 (3/10)).1
  if include_related = false then .ok resp
  else
    match enrichResults neo resp.results with
    | .error e => .error e
    | .ok rs => .ok { resp with results := rs }

/-! ## Data model of `redis_cache.py`

Cached values are JSON-serializable Python objects, modelled by `JValue`
(`JValue.null` is Python's `None`).  Serialization (`json.dumps` /
`json.loads`) round-trips exactly on this domain, so the modelled client
stores `JValue`s directly; the `if cached:` truthiness test on the
serialized string is always true for a present entry because `json.dumps`
never returns an empty string. -/

inductive JValue where
  | null
  | bool (b : Bool)
  | num (n : ℚ)
  | str (s : String)
  | arr (elems : List JValue)
  | obj (fields : List (String × JValue))
deriving Repr

/-- `x is None` -/
def JValue.isNull : JValue → Bool
  | .null => true
  | _ => false

mutual

/-- `json.dumps(v, default=str)` with the default separators.  String
escaping is omitted, and object fields are emitted in stored order: the
one `sort_keys=True` call site (`_generate_key`) builds its two-key
top-level dict already in sorted key order and sorts the keyword items
explicitly before serializing. -/
def JValue.dumps : JValue → String
  | .null => "null"
  | .bool true => "true"
  | .bool false => "false"
  | .num n => toString n
  | .str s => "\"" ++ s ++ "\""
  | .arr es => "[" ++ JValue.dumpsList es ++ "]"
  | .obj fs => "\x7b" ++ JValue.dumpsFields fs ++ "\x7d"

def JValue.dumpsList : List JValue → String
  | [] => ""
  | [v] => JValue.dumps v
  | v :: vs => JValue.dumps v ++ ", " ++ JValue.dumpsList vs

def JValue.dumpsFields : List (String × JValue) → String
  | [] => ""
  | [(k, v)] => "\"" ++ k ++ "\": " ++ JValue.dumps v
  | (k, v) :: fs => "\"" ++ k ++ "\": " ++ JValue.dumps v ++ ", " ++ JValue.dumpsFields fs

end

/-- `sorted(kwargs.items())`: Python compares the `(key, value)` tuples
key first; keyword names within one call are unique, so the comparison is
decided by the keys alone. -/
def byKeyLe (a b : String × JValue) : Bool := decide (a.1 ≤ b.1)

/-- `RedisCache._generate_key`: canonicalize the arguments
(`key_data = {'args': args, 'kwargs': sorted(kwargs.items())}`),
serialize deterministically, hash, and prefix.  `hash` abstracts
`hashlib.md5(...).hexdigest()`, of which the code uses no property beyond
being a fixed function of the serialized string. -/
def generateKey (hash : String → String) (pre : String) (args : List JValue)
    (kwargs : List (String × JValue)) : String :=
  let key_data : JValue :=
    .obj [("args", .arr args),
          ("kwargs", .arr ((pySorted byKeyLe kwargs).map (fun p => .arr [.str p.1, p.2])))]
  pre ++ ":" ++ hash (JValue.dumps key_data)

structure RedisError where
  msg : String
deriving DecidableEq, Repr

/-- The Redis client, abstracted as a (possibly failing, possibly
stateful) key-value store over an arbitrary state type `σ`.  TTL-based
expiry needs a clock and is not modelled: "within TTL" means the entry is
still present. -/
structure RedisClient (σ : Type) where
  getC : σ → String → Except RedisError (Option JValue)
  setexC : σ → String → Nat → JValue → Except RedisError σ
  delC : σ → String → Except RedisError (Nat × σ)

/-- The `RedisCache` wrapper object: `enabled` flag, optional connected
client, default TTL. -/
structure RedisCache (σ : Type) where
  enabled : Bool
  client : Option (RedisClient σ)
  default_ttl : Nat

/-- `RedisCache.get`: disabled or absent client → `None`; a `RedisError`
(or decode error) is caught and becomes `None`; a missing key is `None`;
otherwise the deserialized value (out of which a stored JSON `null` is
returned as Python `None`, indistinguishable from a miss). -/
def RedisCache.get {σ : Type} (c : RedisCache σ) (st : σ) (key : String) : JValue :=
  if c.enabled = false then .null
  else
    match c.client with
    | none => .null
    | some cl =>
      match cl.getC st key with
      | .error _ => .null
      | .ok none => .null
      | .ok (some v) => v

/-- `RedisCache.set`: disabled or absent client → `False`; `ttl = ttl or
self.default_ttl` (Python `or`, so an explicit `0` also falls back);
errors are caught and reported as `False`; on success `True` with the
client's new state. -/
def RedisCache.set {σ : Type} (c : RedisCache σ) (st : σ) (key : String) (value : JValue)
    (ttl : Option Nat) : Bool × σ :=
  if c.enabled = false then (false, st)
  else
    match c.client with
    | none => (false, st)
    | some cl =>
      let t := match ttl with
        | none => c.default_ttl
        | some n => if n = 0 then c.default_ttl else n
      match cl.setexC st key t value with
      | .error _ => (false, st)
      | .ok st2 => (true, st2)

/-- `RedisCache.delete`: disabled or absent client → `False`; errors are
caught and reported as `False`; otherwise `bool(result)` of the deleted
count. -/
def RedisCache.delete {σ : Type} (c : RedisCache σ) (st : σ) (key : String) : Bool × σ :=
  if c.enabled = false then (false, st)
  else
    match c.client with
    | none => (false, st)
    | some cl =>
      match cl.delC st key with
      | .error _ => (false, st)
      | .ok nst => (decide (nst.1 ≠ 0), nst.2)

/-- The `sync_wrapper` of the `cache_neo4j_query` decorator.  The wrapped
operation is a function of the call's arguments; the third component
counts how many times it was invoked during this call.
`if cached_result is not None: return cached_result` — then invoke, cache
(the `set` outcome is ignored), and return. -/
def sync_wrapper {σ : Type} (cache : RedisCache σ) (hash : String → String) (pre : String)
    (ttl : Option Nat) (func : List JValue → List (String × JValue) → JValue)
    (args : List JValue) (kwargs : List (String × JValue)) (st : σ) : JValue × σ × Nat :=
  let cache_key := generateKey hash pre args kwargs
  let cached_result := RedisCache.get cache st cache_key
  if cached_result.isNull = false then
    (cached_result, st, 0)
  else
    let result := func args kwargs
    let out := RedisCache.set cache st cache_key result ttl
    (result, out.2, 1)

/-- The `async_wrapper` of the `cache_neo4j_query` decorator: textually the
same logic as `sync_wrapper` with the invocation awaited. -/
def async_wrapper {σ : Type} (cache : RedisCache σ) (hash : String → String) (pre : String)
    (ttl : Option Nat) (func : List JValue → List (String × JValue) → JValue)
    (args : List JValue) (kwargs : List (String × JValue)) (st : σ) : JValue × σ × Nat :=
  let cache_key := generateKey hash pre args kwargs
  let cached_result := RedisCache.get cache st cache_key
  if cached_result.isNull = false then
    (cached_result, st, 0)
  else
    let result := func args kwargs
    let out := RedisCache.set cache st cache_key result ttl
    (result, out.2, 1)

/-- A healthy in-memory Redis backend: an association list of entries,
never failing.  Used to state what the wrapper does when the cache works. -/
def idealClient : RedisClient (List (String × JValue)) where
  getC st key := .ok ((st.find? (fun p => p.1 == key)).map Prod.snd)
  setexC st key _ttl v := .ok ((key, v) :: st)
  delC st key := .ok ((st.filter (fun p => p.1 == key)).length, st.filter (fun p => p.1 != key))

def idealCache : RedisCache (List (String × JValue)) :=
  { enabled := true, client := some idealClient, default_ttl := 36000 }

/-! ## C1: Reciprocal Rank Fusion scores -/

/-- The 1-based position of document `d` in a ranked list (first
occurrence), as in the spec's "rank is 1-based position within that
list". -/
def findRank (d : String) : List SearchResult → Option Nat
  | [] => none
  | r :: rs => if r.pmcid = d then some 1 else (findRank d rs).map (· + 1)

/-- The contribution `1 / (60 + rank)` of one ranked list to a document's
fused score, `0` when the document is not in the list. -/
def rrfRankTerm (results : List SearchResult) (d : String) : ℚ :=
  match findRank d results with
  | some rank => 1 / (60 + (rank : ℚ))
  | none => 0

theorem rrfAdd_not_mem (scores : String → ℚ) (ranked : List (Nat × SearchResult))
    (d : String) (h : ∀ p ∈ ranked, p.2.pmcid ≠ d) :
    rrfAdd scores ranked d = scores d := by
  induction ranked generalizing scores with
  | nil => rfl
  | cons p ps ih =>
    have hd : ¬ d = p.2.pmcid := fun hdp => (h p (List.mem_cons_self p ps)) hdp.symm
    have := ih (fun d' => if d' = p.2.pmcid then scores d' + 1 / (60 + (p.1 : ℚ)) else scores d')
      (fun q hq => h q (List.mem_cons_of_mem p hq))
    simpa [rrfAdd, hd] using this

theorem rrfAdd_enumFrom (scores : String → ℚ) (l : List SearchResult) (n : Nat) (d : String)
    (h : (l.map SearchResult.pmcid).count d ≤ 1) :
    rrfAdd scores (l.enumFrom (n + 1)) d =
      scores d +
        (match findRank d l with
          | some i => 1 / (60 + ((n + i : Nat) : ℚ))
          | none => 0) := by
  induction l generalizing scores n with
  | nil => simp [rrfAdd, findRank, List.enumFrom]
  | cons r rs ih =>
    by_cases hr : r.pmcid = d
    · have hcount : d ∉ rs.map SearchResult.pmcid := by
        intro hmem
        have h1 : 1 ≤ (rs.map SearchResult.pmcid).count d := List.one_le_count_iff.mpr hmem
        have h2 : ((r :: rs).map SearchResult.pmcid).count d =
            (rs.map SearchResult.pmcid).count d + 1 := by
          simp [hr]
        omega
      have hrest : rrfAdd
          (fun d' => if d' = r.pmcid then scores d' + 1 / (60 + ((n + 1 : Nat) : ℚ)) else scores d')
          (rs.enumFrom (n + 1 + 1)) d =
          (if d = r.pmcid then scores d + 1 / (60 + ((n + 1 : Nat) : ℚ)) else scores d) := by
        apply rrfAdd_not_mem
        intro p hp hpd
        have hp2 : p.2 ∈ rs := by
          have := List.enumFrom_map_snd (n + 1 + 1) rs
          exact this ▸ List.mem_map_of_mem Prod.snd hp
        exact hcount (hpd ▸ List.mem_map_of_mem SearchResult.pmcid hp2)
      simp only [List.enumFrom, rrfAdd, List.foldl_cons] at hrest ⊢
      rw [hrest]
      simp [findRank, hr]
    · have hcount : (rs.map SearchResult.pmcid).count d ≤ 1 := by
        have h2 : ((r :: rs).map SearchResult.pmcid).count d =
            (rs.map SearchResult.pmcid).count d +
              ((r :: rs).map SearchResult.pmcid).count d -
              (rs.map SearchResult.pmcid).count d := by omega
        have h3 : (rs.map SearchResult.pmcid).count d ≤
            ((r :: rs).map SearchResult.pmcid).count d := by
          simp only [List.map_cons, List.count_cons]
          omega
        omega
      have hupd := ih
        (fun d' => if d' = r.pmcid then scores d' + 1 / (60 + ((n + 1 : Nat) : ℚ)) else scores d')
        (n + 1) hcount
      have hd : ¬ d = r.pmcid := fun hdr => hr hdr.symm
      simp only [List.enumFrom, rrfAdd, List.foldl_cons] at hupd ⊢
      rw [hupd]
      simp only [hd, if_false, findRank, hr]
      cases hfr : findRank d rs with
      | none => simp [hfr]
      | some i =>
        have he : n + 1 + i = n + (i + 1) := by omega
        simp [hfr, he]

/-- Claim C1: in hybrid search, for fixed semantic and fulltext ranked
lists, every document's fused (RRF) score equals exactly the sum, over
the lists containing it, of `1/(60 + rank)` where rank is the document's
1-based position in that list; a document present in only one list is
scored from that list alone (the other list contributes the `none`
branch, `0`). -/
theorem C1_rrf_fused_score_exact (semantic_results fulltext_results : List SearchResult)
    (d : String)
    (hsem : (semantic_results.map SearchResult.pmcid).count d ≤ 1)
    (hft : (fulltext_results.map SearchResult.pmcid).count d ≤ 1) :
    rrfScores semantic_results fulltext_results d =
      rrfRankTerm semantic_results d + rrfRankTerm fulltext_results d := by
  have h1 := rrfAdd_enumFrom (rrfAdd (fun _ => 0) (semantic_results.enumFrom 1))
    fulltext_results 0 d hft
  have h2 := rrfAdd_enumFrom (fun _ => 0) semantic_results 0 d hsem
  simp only [Nat.zero_add] at h1 h2
  unfold rrfScores
  rw [h1, h2]
  simp [rrfRankTerm]

/-- Concrete instance of C1: document "PMC-B" is ranked 2nd in the
semantic list and 1st in the fulltext list. -/
theorem C1_witness :
    (([{ pmcid := "PMC-A", score := 1/2, search_method := "semantic" },
       { pmcid := "PMC-B", score := 2/5, search_method := "semantic" }].map
        SearchResult.pmcid).count "PMC-B" ≤ 1) ∧
    (([{ pmcid := "PMC-B", score := 3/10, search_method := "fulltext" }].map
        SearchResult.pmcid).count "PMC-B" ≤ 1) ∧
    rrfScores
        [{ pmcid := "PMC-A", score := 1/2, search_method := "semantic" },
         { pmcid := "PMC-B", score := 2/5, search_method := "semantic" }]
        [{ pmcid := "PMC-B", score := 3/10, search_method := "fulltext" }] "PMC-B" =
      rrfRankTerm
        [{ pmcid := "PMC-A", score := 1/2, search_method := "semantic" },
         { pmcid := "PMC-B", score := 2/5, search_method := "semantic" }] "PMC-B" +
      rrfRankTerm
        [{ pmcid := "PMC-B", score := 3/10, search_method := "fulltext" }] "PMC-B" :=
  ⟨by simp, by simp,
   C1_rrf_fused_score_exact _ _ "PMC-B" (by simp) (by simp)⟩

/-- Claim C3: every hybrid-mode search asks the semantic and the fulltext
retriever for `2 × limit` results at offset `0`, and the caller's
`offset`/`limit` slice is applied to the fused list in memory, never
pushed into either retriever call. -/
theorem C3_overfetch_no_pushdown (db : Db) (limit offset : Nat) (min_similarity : ℚ) :
    (hybridSearch db limit offset min_similarity).2 =
      [.semanticQuery (2 * limit) 0, .fulltextQuery (2 * limit) 0] ∧
    (hybridSearch db limit offset min_similarity).1 =
      ((hybridFuse (semanticSearch db (2 * limit) 0 min_similarity).1
         (fulltextSearch db (2 * limit) 0).1).drop offset).take limit := by
  rw [Nat.mul_comm 2 limit]
  exact ⟨rfl, rfl⟩

/-- Claim C4: a query whose stripped text is shorter than 2 characters
gets the empty, well-formed response (`total_count = 0`, `page = 1`,
`total_pages = 0`, `has_next = false`) and no store call is issued; no
exception is modelled because this branch is total by construction. -/
theorem C4_short_query_empty_response (db : Db) (query : String) (mode : SearchMode)
    (limit offset : Nat) (min_similarity : ℚ)
    (h : (pyStrip query).length < 2) :
    search db query mode limit offset min_similarity =
      ({ query := query, mode := mode.val, results := [], total_count := 0,
         page := 1, total_pages := 0, has_next := false }, []) := by
  unfold search
  rw [if_pos (Or.inr h)]

/-- Concrete instance of C4: the one-character query `"a"` against a
non-empty store. -/
theorem C4_witness :
    (pyStrip "a").length < 2 ∧
    search ⟨[⟨"PMC-X", 9/10⟩], [⟨"PMC-X", 1⟩]⟩ "a" .hybrid 10 0 (3/10) =
      ({ query := "a", mode := "hybrid", results := [], total_count := 0,
         page := 1, total_pages := 0, has_next := false }, []) :=
  ⟨by decide, C4_short_query_empty_response _ "a" .hybrid 10 0 (3/10) (by decide)⟩

/-! ## Length and order lemmas for the three search modes -/

theorem semanticSearch_length_le (db : Db) (limit offset : Nat) (ms : ℚ) :
    (semanticSearch db limit offset ms).1.length ≤ limit := by
  simp only [semanticSearch, List.length_map, List.length_take]
  exact min_le_left _ _

theorem fulltextSearch_length_le (db : Db) (limit offset : Nat) :
    (fulltextSearch db limit offset).1.length ≤ limit := by
  simp only [fulltextSearch, List.length_map, List.length_take]
  exact min_le_left _ _

theorem hybridSearch_length_le (db : Db) (limit offset : Nat) (ms : ℚ) :
    (hybridSearch db limit offset ms).1.length ≤ limit := by
  simp only [hybridSearch, List.length_take]
  exact min_le_left _ _

theorem byScoreDesc_trans :
    ∀ a b c, byScoreDesc a b = true → byScoreDesc b c = true → byScoreDesc a c = true := by
  intro a b c hab hbc
  simp only [byScoreDesc, decide_eq_true_eq] at *
  exact le_trans hbc hab

theorem byScoreDesc_total : ∀ a b, (byScoreDesc a b || byScoreDesc b a) = true := by
  intro a b
  simp only [byScoreDesc, Bool.or_eq_true, decide_eq_true_eq]
  exact le_total b.score a.score

theorem bySimilarityDesc_trans :
    ∀ a b c, bySimilarityDesc a b = true → bySimilarityDesc b c = true →
      bySimilarityDesc a c = true := by
  intro a b c hab hbc
  simp only [bySimilarityDesc, decide_eq_true_eq] at *
  exact le_trans hbc hab

theorem bySimilarityDesc_total : ∀ a b, (bySimilarityDesc a b || bySimilarityDesc b a) = true := by
  intro a b
  simp only [bySimilarityDesc, Bool.or_eq_true, decide_eq_true_eq]
  exact le_total b.similarity a.similarity

theorem byRankDesc_trans :
    ∀ a b c, byRankDesc a b = true → byRankDesc b c = true → byRankDesc a c = true := by
  intro a b c hab hbc
  simp only [byRankDesc, decide_eq_true_eq] at *
  exact le_trans hbc hab

theorem byRankDesc_total : ∀ a b, (byRankDesc a b || byRankDesc b a) = true := by
  intro a b
  simp only [byRankDesc, Bool.or_eq_true, decide_eq_true_eq]
  exact le_total b.rank a.rank

/-- A slice of a list is a sublist of it. -/
theorem take_drop_sublist {α : Type} (l : List α) (offset limit : Nat) :
    List.Sublist ((l.drop offset).take limit) l :=
  (List.take_sublist _ _).trans (List.drop_sublist _ _)

/-- Scores of the semantic results are non-increasing: the SQL orders by
similarity descending, slicing preserves order, and rounding is
monotone. -/
theorem semanticSearch_scores_sorted (db : Db) (limit offset : Nat) (ms : ℚ) :
    (semanticSearch db limit offset ms).1.Pairwise (fun a b => b.score ≤ a.score) := by
  simp only [semanticSearch]
  rw [List.pairwise_map]
  refine List.Pairwise.imp ?_
    (((pairwise_pySorted bySimilarityDesc_trans bySimilarityDesc_total _).sublist
      (take_drop_sublist _ offset limit)))
  intro a b hab
  simp only [bySimilarityDesc, decide_eq_true_eq] at hab
  exact pyRound4_mono hab

theorem fulltextSearch_scores_sorted (db : Db) (limit offset : Nat) :
    (fulltextSearch db limit offset).1.Pairwise (fun a b => b.score ≤ a.score) := by
  simp only [fulltextSearch]
  rw [List.pairwise_map]
  refine List.Pairwise.imp ?_
    (((pairwise_pySorted byRankDesc_trans byRankDesc_total _).sublist
      (take_drop_sublist _ offset limit)))
  intro a b hab
  simp only [byRankDesc, decide_eq_true_eq] at hab
  exact pyRound4_mono hab

theorem hybridSearch_scores_sorted (db : Db) (limit offset : Nat) (ms : ℚ) :
    (hybridSearch db limit offset ms).1.Pairwise (fun a b => b.score ≤ a.score) := by
  simp only [hybridSearch, hybridFuse]
  refine List.Pairwise.imp ?_
    (((pairwise_pySorted byScoreDesc_trans byScoreDesc_total _).sublist
      (take_drop_sublist _ offset limit)))
  intro a b hab
  simpa only [byScoreDesc, decide_eq_true_eq] using hab

/-- The dedup pass keeps each document identifier at most once, and keeps
none of the already-seen identifiers. -/
theorem mergeDedup_nodup (rrf : String → ℚ) (l : List SearchResult) (seen : List String) :
    ((mergeDedup rrf l seen).map SearchResult.pmcid).Nodup ∧
      ∀ x ∈ mergeDedup rrf l seen, x.pmcid ∉ seen := by
  induction l generalizing seen with
  | nil => simp [mergeDedup]
  | cons r rs ih =>
    by_cases hmem : r.pmcid ∈ seen
    · simp only [mergeDedup, if_pos hmem]
      exact ⟨(ih seen).1, (ih seen).2⟩
    · simp only [mergeDedup, if_neg hmem, List.map_cons, List.nodup_cons]
      obtain ⟨ihn, ihs⟩ := ih (r.pmcid :: seen)
      refine ⟨⟨?_, ihn⟩, ?_⟩
      · intro hc
        rcases List.mem_map.mp hc with ⟨x, hx, hxe⟩
        exact (ihs x hx) (hxe ▸ List.mem_cons_self _ _)
      · intro x hx
        rcases List.mem_cons.mp hx with rfl | hx'
        · exact hmem
        · exact fun hc => (ihs x hx') (List.mem_cons_of_mem _ hc)

/-- After hybrid fusion each document identifier appears at most once. -/
theorem hybridSearch_pmcid_nodup (db : Db) (limit offset : Nat) (ms : ℚ) :
    ((hybridSearch db limit offset ms).1.map SearchResult.pmcid).Nodup := by
  simp only [hybridSearch, hybridFuse]
  have h1 := (mergeDedup_nodup
    (rrfScores (semanticSearch db (limit * 2) 0 ms).1 (fulltextSearch db (limit * 2) 0).1)
    ((semanticSearch db (limit * 2) 0 ms).1 ++ (fulltextSearch db (limit * 2) 0).1) []).1
  have h2 : ((pySorted byScoreDesc
      (mergeDedup (rrfScores (semanticSearch db (limit * 2) 0 ms).1
        (fulltextSearch db (limit * 2) 0).1)
        ((semanticSearch db (limit * 2) 0 ms).1 ++ (fulltextSearch db (limit * 2) 0).1) [])).map
      SearchResult.pmcid).Nodup :=
    ((pySorted_perm byScoreDesc _).map SearchResult.pmcid).symm.nodup_iff.mp h1
  exact h2.sublist ((take_drop_sublist _ offset limit).map SearchResult.pmcid)

/-- Claim C10: the response's `total_count` is computed from the
already-paginated result list, hence is at most `limit`; consequently
`has_next` is always `false` and `total_pages` is at most 1, regardless
of how many further matching documents the stores hold. -/
theorem C10_degenerate_pagination (db : Db) (query : String) (mode : SearchMode)
    (limit offset : Nat) (min_similarity : ℚ) (hlim : 1 ≤ limit) :
    (search db query mode limit offset min_similarity).1.total_count =
      (search db query mode limit offset min_similarity).1.results.length ∧
    (search db query mode limit offset min_similarity).1.total_count ≤ limit ∧
    (search db query mode limit offset min_similarity).1.has_next = false ∧
    (search db query mode limit offset min_similarity).1.total_pages ≤ 1 := by
  unfold search
  by_cases hv : query = "" ∨ (pyStrip query).length < 2
  · rw [if_pos hv]
    exact ⟨rfl, Nat.zero_le _, rfl, Nat.zero_le _⟩
  · rw [if_neg hv]
    have hlen : (match mode with
        | .semantic => semanticSearch db limit offset min_similarity
        | .fulltext => fulltextSearch db limit offset
        | .hybrid => hybridSearch db limit offset min_similarity).1.length ≤ limit := by
      cases mode with
      | semantic => exact semanticSearch_length_le db limit offset min_similarity
      | fulltext => exact fulltextSearch_length_le db limit offset
      | hybrid => exact hybridSearch_length_le db limit offset min_similarity
    refine ⟨rfl, hlen, ?_, ?_⟩
    · simp only [decide_eq_false_iff_not, not_lt]
      omega
    · have hdiv : (match mode with
          | .semantic => semanticSearch db limit offset min_similarity
          | .fulltext => fulltextSearch db limit offset
          | .hybrid => hybridSearch db limit offset min_similarity).1.length + limit - 1 <
          2 * limit := by omega
      exact Nat.lt_succ_iff.mp ((Nat.div_lt_iff_lt_mul (by omega)).mpr (by omega))

/-- Concrete instance of C10: hybrid search, one matching document,
`limit = 5`. -/
theorem C10_witness :
    1 ≤ 5 ∧
    ((search ⟨[⟨"PMC-X", 9/10⟩], []⟩ "bone loss" .hybrid 5 0 (3/10)).1.total_count =
      (search ⟨[⟨"PMC-X", 9/10⟩], []⟩ "bone loss" .hybrid 5 0 (3/10)).1.results.length ∧
    (search ⟨[⟨"PMC-X", 9/10⟩], []⟩ "bone loss" .hybrid 5 0 (3/10)).1.total_count ≤ 5 ∧
    (search ⟨[⟨"PMC-X", 9/10⟩], []⟩ "bone loss" .hybrid 5 0 (3/10)).1.has_next = false ∧
    (search ⟨[⟨"PMC-X", 9/10⟩], []⟩ "bone loss" .hybrid 5 0 (3/10)).1.total_pages ≤ 1) :=
  ⟨by decide, C10_degenerate_pagination _ "bone loss" .hybrid 5 0 (3/10) (by decide)⟩

/-- Claim C5: for every query in any mode, the response carries at most
`limit` results, the scores are non-increasing by position, and after
hybrid fusion each document identifier appears at most once. -/
theorem C5_response_invariants (db : Db) (query : String) (mode : SearchMode)
    (limit offset : Nat) (min_similarity : ℚ) :
    (search db query mode limit offset min_similarity).1.results.length ≤ limit ∧
    (search db query mode limit offset min_similarity).1.results.Pairwise
      (fun a b => b.score ≤ a.score) ∧
    (mode = .hybrid →
      ((search db query mode limit offset min_similarity).1.results.map
        SearchResult.pmcid).Nodup) := by
  unfold search
  by_cases hv : query = "" ∨ (pyStrip query).length < 2
  · rw [if_pos hv]
    exact ⟨Nat.zero_le _, List.Pairwise.nil, fun _ => List.nodup_nil⟩
  · rw [if_neg hv]
    refine ⟨?_, ?_, ?_⟩
    · cases mode with
      | semantic => exact semanticSearch_length_le db limit offset min_similarity
      | fulltext => exact fulltextSearch_length_le db limit offset
      | hybrid => exact hybridSearch_length_le db limit offset min_similarity
    · cases mode with
      | semantic => exact semanticSearch_scores_sorted db limit offset min_similarity
      | fulltext => exact fulltextSearch_scores_sorted db limit offset
      | hybrid => exact hybridSearch_scores_sorted db limit offset min_similarity
    · intro hmode
      subst hmode
      exact hybridSearch_pmcid_nodup db limit offset min_similarity

/-- Concrete instance of C5: hybrid mode, two overlapping candidate
tables, `limit = 2`. -/
theorem C5_witness :
    (search ⟨[⟨"PMC-A", 4/5⟩, ⟨"PMC-B", 3/5⟩], [⟨"PMC-B", 1/3⟩]⟩
        "muscle atrophy" .hybrid 2 0 (3/10)).1.results.length ≤ 2 ∧
    (search ⟨[⟨"PMC-A", 4/5⟩, ⟨"PMC-B", 3/5⟩], [⟨"PMC-B", 1/3⟩]⟩
        "muscle atrophy" .hybrid 2 0 (3/10)).1.results.Pairwise
      (fun a b => b.score ≤ a.score) ∧
    ((search ⟨[⟨"PMC-A", 4/5⟩, ⟨"PMC-B", 3/5⟩], [⟨"PMC-B", 1/3⟩]⟩
        "muscle atrophy" .hybrid 2 0 (3/10)).1.results.map SearchResult.pmcid).Nodup := by
  obtain ⟨h1, h2, h3⟩ := C5_response_invariants
    ⟨[⟨"PMC-A", 4/5⟩, ⟨"PMC-B", 3/5⟩], [⟨"PMC-B", 1/3⟩]⟩
    "muscle atrophy" .hybrid 2 0 (3/10)
  exact ⟨h1, h2, h3 rfl⟩

/-- Counterexample to claim C2: with one semantic hit "PMC-B" and one
fulltext hit "PMC-A", both fused scores are `round(1/61, 4)`, yet the
results come out `["PMC-B", "PMC-A"]` — the stable sort keeps insertion
(semantic-then-fulltext) order for exact ties, not document-identifier
order. -/
theorem C2_counterexample :
    ¬ ((hybridSearch ⟨[⟨"PMC-B", 1/2⟩], [⟨"PMC-A", 1/4⟩]⟩ 2 0 (3/10)).1.Pairwise
        (fun a b => a.score = b.score → a.pmcid ≤ b.pmcid)) := by
  have hab : ¬ ("PMC-A" : String) = "PMC-B" := by decide
  have hba : ¬ ("PMC-B" : String) = "PMC-A" := by decide
  have hres : (hybridSearch ⟨[⟨"PMC-B", 1/2⟩], [⟨"PMC-A", 1/4⟩]⟩ 2 0 (3/10)).1 =
      [{ pmcid := "PMC-B", score := pyRound4 (1/61), search_method := "hybrid",
         match_type := some "similar" },
       { pmcid := "PMC-A", score := pyRound4 (1/61), search_method := "hybrid",
         match_type := some "exact_match" }] := by
    norm_num [hab, hba, hybridSearch, semanticSearch, fulltextSearch, hybridFuse, mergeDedup,
      rrfScores, rrfAdd, pySorted, insertS, byScoreDesc, bySimilarityDesc,
      semRowToResult, ftRowToResult, List.enumFrom]
  intro h
  rw [hres] at h
  have hR := (List.pairwise_cons.mp h).1
    { pmcid := "PMC-A", score := pyRound4 (1/61), search_method := "hybrid",
      match_type := some "exact_match" } (List.mem_cons_self _ _)
  have hle : ("PMC-B" : String) ≤ "PMC-A" := hR rfl
  have hlt : ("PMC-A" : String).data < ("PMC-B" : String).data := by decide
  exact hle (String.lt_iff_toList_lt.mpr hlt)

/-- Claim C2 (amended): after deduplication and the descending stable
sort, two results with exactly equal fused scores appear in a
deterministic order — the first-occurrence order of the concatenated
semantic-then-fulltext lists (Python's `sorted` is stable), not
document-identifier order. -/
theorem C2_amended_ties_keep_insertion_order (semantic_results fulltext_results : List SearchResult)
    (a b : SearchResult)
    (h : List.Sublist [a, b]
      (mergeDedup (rrfScores semantic_results fulltext_results)
        (semantic_results ++ fulltext_results) []))
    (hs : a.score = b.score) :
    List.Sublist [a, b] (hybridFuse semantic_results fulltext_results) :=
  pair_sublist_pySorted h (by simp [byScoreDesc, hs])

/-- Concrete instance of the amended C2: the tied pair of
`C2_counterexample` stays in semantic-then-fulltext order through the
sort. -/
theorem C2_witness :
    List.Sublist
      [{ pmcid := "PMC-B", score := pyRound4 (1/61), search_method := "hybrid",
         match_type := some "similar" },
       { pmcid := "PMC-A", score := pyRound4 (1/61), search_method := "hybrid",
         match_type := some "exact_match" }]
      (mergeDedup
        (rrfScores
          [{ pmcid := "PMC-B", score := pyRound4 (1/2), search_method := "semantic",
             match_type := some "similar" }]
          [{ pmcid := "PMC-A", score := pyRound4 (1/4), search_method := "fulltext",
             match_type := some "exact_match" }])
        ([{ pmcid := "PMC-B", score := pyRound4 (1/2), search_method := "semantic",
            match_type := some "similar" }] ++
         [{ pmcid := "PMC-A", score := pyRound4 (1/4), search_method := "fulltext",
            match_type := some "exact_match" }]) []) ∧
    List.Sublist
      [{ pmcid := "PMC-B", score := pyRound4 (1/61), search_method := "hybrid",
         match_type := some "similar" },
       { pmcid := "PMC-A", score := pyRound4 (1/61), search_method := "hybrid",
         match_type := some "exact_match" }]
      (hybridFuse
        [{ pmcid := "PMC-B", score := pyRound4 (1/2), search_method := "semantic",
           match_type := some "similar" }]
        [{ pmcid := "PMC-A", score := pyRound4 (1/4), search_method := "fulltext",
           match_type := some "exact_match" }]) := by
  have hab : ¬ ("PMC-A" : String) = "PMC-B" := by decide
  have hba : ¬ ("PMC-B" : String) = "PMC-A" := by decide
  have hd : (mergeDedup
      (rrfScores
        [{ pmcid := "PMC-B", score := pyRound4 (1/2), search_method := "semantic",
           match_type := some "similar" }]
        [{ pmcid := "PMC-A", score := pyRound4 (1/4), search_method := "fulltext",
           match_type := some "exact_match" }])
      ([{ pmcid := "PMC-B", score := pyRound4 (1/2), search_method := "semantic",
          match_type := some "similar" }] ++
       [{ pmcid := "PMC-A", score := pyRound4 (1/4), search_method := "fulltext",
          match_type := some "exact_match" }]) []) =
      [{ pmcid := "PMC-B", score := pyRound4 (1/61), search_method := "hybrid",
         match_type := some "similar" },
       { pmcid := "PMC-A", score := pyRound4 (1/61), search_method := "hybrid",
         match_type := some "exact_match" }] := by
    norm_num [hab, hba, mergeDedup, rrfScores, rrfAdd, List.enumFrom]
  refine ⟨hd ▸ List.Sublist.refl _, ?_⟩
  exact C2_amended_ties_keep_insertion_order _ _ _ _ (hd ▸ List.Sublist.refl _) rfl

/-- Counterexample to claim C9: the enrichment loop sits in a
`try/finally` with no `except` clause, so one failing Neo4j lookup for
the single result aborts `search_with_graph_context` with that error —
the response (whose search part did produce one result) is never
returned. -/
theorem C9_counterexample :
    search_with_graph_context ⟨[⟨"PMC-X", 9/10⟩], []⟩ (fun _ => .error ⟨"neo4j down"⟩)
        "bone loss" .semantic 5 true = .error ⟨"neo4j down"⟩ ∧
    (search ⟨[⟨"PMC-X", 9/10⟩], []⟩ "bone loss" .semantic 5 0 (3/10)).1.results.length = 1 := by
  have h1 : ¬ ("bone loss" : String) = "" := by decide
  have h2 : ¬ ((pyStrip "bone loss").length < 2) := by decide
  constructor
  · norm_num [h1, h2, search_with_graph_context, search, semanticSearch, pySorted, insertS,
      semRowToResult, enrichResults]
  · norm_num [h1, h2, search, semanticSearch, pySorted, insertS, semRowToResult]

/-- Claim C9 (amended): a failing graph-enrichment lookup is not
contained per result — when the lookup of the first result fails, the
error propagates out of `search_with_graph_context` and no response is
returned. -/
theorem C9_amended_enrichment_error_propagates (db : Db)
    (neo : String → Except Neo4jError (Option GraphInfo)) (query : String)
    (mode : SearchMode) (limit : Nat) (r : SearchResult) (e : Neo4jError)
    (hhead : (search db query mode limit 0 (3/10)).1.results.head? = some r)
    (herr : neo r.pmcid = .error e) :
    search_with_graph_context db neo query mode limit true = .error e := by
  unfold search_with_graph_context
  rw [if_neg (by simp : ¬ (true = false))]
  cases hxs : (search db query mode limit 0 (3/10)).1.results with
  | nil => rw [hxs] at hhead; cases hhead
  | cons r' rs =>
    rw [hxs] at hhead
    have hr : r' = r := by
      simpa using hhead
    subst hr
    simp [enrichResults, herr]

/-- Concrete instance of the amended C9: the failing-backend scenario of
`C9_counterexample`, through the general theorem. -/
theorem C9_witness :
    (search ⟨[⟨"PMC-X", 9/10⟩], []⟩ "bone loss" .semantic 5 0 (3/10)).1.results.head? =
      some { pmcid := "PMC-X", score := pyRound4 (9/10), search_method := "semantic",
             match_type := some "highly_similar" } ∧
    search_with_graph_context ⟨[⟨"PMC-X", 9/10⟩], []⟩
        (fun _ => .error ⟨"backend unreachable"⟩) "bone loss" .semantic 5 true =
      .error ⟨"backend unreachable"⟩ := by
  have h1 : ¬ ("bone loss" : String) = "" := by decide
  have h2 : ¬ ((pyStrip "bone loss").length < 2) := by decide
  have hhead : (search ⟨[⟨"PMC-X", 9/10⟩], []⟩ "bone loss" .semantic 5 0 (3/10)).1.results.head? =
      some { pmcid := "PMC-X", score := pyRound4 (9/10), search_method := "semantic",
             match_type := some "highly_similar" } := by
    norm_num [h1, h2, search, semanticSearch, pySorted, insertS, semRowToResult]
  exact ⟨hhead,
    C9_amended_enrichment_error_propagates _ _ "bone loss" .semantic 5 _ _ hhead rfl⟩

/-! ## Cache-key derivation (C7) -/

theorem byKeyLe_trans :
    ∀ (a b c : String × JValue), byKeyLe a b = true → byKeyLe b c = true →
      byKeyLe a c = true := by
  intro a b c hab hbc
  simp only [byKeyLe, decide_eq_true_eq] at *
  exact le_trans hab hbc

theorem byKeyLe_total : ∀ (a b : String × JValue), (byKeyLe a b || byKeyLe b a) = true := by
  intro a b
  simp only [byKeyLe, Bool.or_eq_true, decide_eq_true_eq]
  exact le_total a.1 b.1

/-- Sorting keyword items whose keys are distinct is a function of the
item multiset only: permuted inputs sort to the same list. -/
theorem pySorted_byKeyLe_perm_eq (kw1 kw2 : List (String × JValue))
    (hp : List.Perm kw1 kw2) (hn : (kw1.map Prod.fst).Nodup) :
    pySorted byKeyLe kw1 = pySorted byKeyLe kw2 := by
  have hperm : List.Perm (pySorted byKeyLe kw1) (pySorted byKeyLe kw2) :=
    ((pySorted_perm _ kw1).trans hp).trans (pySorted_perm byKeyLe kw2).symm
  refine @List.Perm.eq_of_sorted (String × JValue) (fun a b => byKeyLe a b = true) _ _ ?_ ?_ ?_ hperm
  · intro a b ha hb hab hba
    have ha1 : a ∈ kw1 := (pySorted_perm byKeyLe kw1).mem_iff.mp ha
    have hb1 : b ∈ kw1 := hp.symm.mem_iff.mp ((pySorted_perm byKeyLe kw2).mem_iff.mp hb)
    have hkey : a.1 = b.1 := by
      simp only [byKeyLe, decide_eq_true_eq] at hab hba
      exact le_antisymm hab hba
    exact List.inj_on_of_nodup_map hn ha1 hb1 hkey
  · exact pairwise_pySorted byKeyLe_trans byKeyLe_total kw1
  · exact pairwise_pySorted byKeyLe_trans byKeyLe_total kw2

/-- Claim C7: cache-key derivation is order-independent over keyword
arguments (for distinct keyword names, as in any Python call), and the
sync and async wrappers share the key-derivation — indeed their entire
behavior coincides, so equal calls produce equal keys regardless of the
calling convention. -/
theorem C7_cache_key_invariance (hash : String → String) (pre : String)
    (args : List JValue) (kw1 kw2 : List (String × JValue))
    (hp : List.Perm kw1 kw2) (hn : (kw1.map Prod.fst).Nodup) :
    generateKey hash pre args kw1 = generateKey hash pre args kw2 ∧
    (∀ (σ : Type) (cache : RedisCache σ) (ttl : Option Nat)
        (func : List JValue → List (String × JValue) → JValue) (st : σ),
      sync_wrapper cache hash pre ttl func args kw1 st =
        async_wrapper cache hash pre ttl func args kw1 st) := by
  constructor
  · unfold generateKey
    rw [pySorted_byKeyLe_perm_eq kw1 kw2 hp hn]
  · intro σ cache ttl func st
    rfl

/-- Concrete instance of C7: `{a: 1, b: 2}` versus `{b: 2, a: 1}`. -/
theorem C7_witness :
    List.Perm [("a", JValue.num 1), ("b", JValue.num 2)]
      [("b", JValue.num 2), ("a", JValue.num 1)] ∧
    ([("a", JValue.num 1), ("b", JValue.num 2)].map Prod.fst).Nodup ∧
    generateKey (fun s => s) "neo4j:full_graph" []
        [("a", JValue.num 1), ("b", JValue.num 2)] =
      generateKey (fun s => s) "neo4j:full_graph" []
        [("b", JValue.num 2), ("a", JValue.num 1)] := by
  have hp : List.Perm [("a", JValue.num 1), ("b", JValue.num 2)]
      [("b", JValue.num 2), ("a", JValue.num 1)] :=
    List.Perm.swap ("b", JValue.num 2) ("a", JValue.num 1) []
  have hn : ([("a", JValue.num 1), ("b", JValue.num 2)].map Prod.fst).Nodup := by
    simp
  exact ⟨hp, hn,
    (C7_cache_key_invariance (fun s => s) "neo4j:full_graph" [] _ _ hp hn).1⟩

/-! ## The caching decorator (C6, C8) -/

/-- Counterexample to claim C6: a wrapped operation that returns `None`.
The first call misses, invokes the operation, and does store `null` under
the derived key — but `RedisCache.get` returns the decoded `null` as
Python `None`, which the wrapper cannot distinguish from a miss
(`if cached_result is not None`), so the second identical call invokes
the operation again (invocation count 1, not 0). -/
theorem C6_counterexample :
    (sync_wrapper idealCache (fun s => s) "neo4j" none (fun _ _ => JValue.null) [] []
        []).2.1 =
      [(generateKey (fun s => s) "neo4j" [] [], JValue.null)] ∧
    (sync_wrapper idealCache (fun s => s) "neo4j" none (fun _ _ => JValue.null) [] []
        []).2.2 = 1 ∧
    (sync_wrapper idealCache (fun s => s) "neo4j" none (fun _ _ => JValue.null) [] []
        ((sync_wrapper idealCache (fun s => s) "neo4j" none (fun _ _ => JValue.null) [] []
          []).2.1)).2.2 = 1 := by
  refine ⟨rfl, rfl, ?_⟩
  simp [sync_wrapper, RedisCache.get, RedisCache.set, idealCache, idealClient,
    JValue.isNull, generateKey]

/-- Claim C6 (amended): over a healthy cache backend, a hit returns the
cached value without invoking the wrapped operation; a miss invokes it
exactly once, stores the result under the derived key, and returns it; a
second identical call while the entry lives returns an equal result with
no second invocation — provided the operation's result is not `None`
(a stored JSON `null` reads back as `None` and is treated as a miss, so a
`None`-returning operation is re-invoked); the async wrapper behaves
identically to the sync one. -/
theorem C6_amended_cache_wrapping (hash : String → String) (pre : String) (ttl : Option Nat)
    (func : List JValue → List (String × JValue) → JValue)
    (args : List JValue) (kwargs : List (String × JValue))
    (st : List (String × JValue)) :
    ((RedisCache.get idealCache st (generateKey hash pre args kwargs)).isNull = false →
      sync_wrapper idealCache hash pre ttl func args kwargs st =
        (RedisCache.get idealCache st (generateKey hash pre args kwargs), st, 0)) ∧
    ((RedisCache.get idealCache st (generateKey hash pre args kwargs)).isNull = true →
      sync_wrapper idealCache hash pre ttl func args kwargs st =
        (func args kwargs, (generateKey hash pre args kwargs, func args kwargs) :: st, 1)) ∧
    ((RedisCache.get idealCache st (generateKey hash pre args kwargs)).isNull = true →
      (func args kwargs).isNull = false →
      sync_wrapper idealCache hash pre ttl func args kwargs
          ((sync_wrapper idealCache hash pre ttl func args kwargs st).2.1) =
        (func args kwargs, (generateKey hash pre args kwargs, func args kwargs) :: st, 0)) ∧
    (async_wrapper idealCache hash pre ttl func args kwargs st =
      sync_wrapper idealCache hash pre ttl func args kwargs st) := by
  refine ⟨?_, ?_, ?_, rfl⟩
  · intro hhit
    unfold sync_wrapper
    rw [if_pos hhit]
  · intro hmiss
    unfold sync_wrapper
    rw [if_neg (by simp [hmiss])]
    simp [RedisCache.set, idealCache, idealClient]
  · intro hmiss hnn
    have hfirst : sync_wrapper idealCache hash pre ttl func args kwargs st =
        (func args kwargs, (generateKey hash pre args kwargs, func args kwargs) :: st, 1) := by
      unfold sync_wrapper
      rw [if_neg (by simp [hmiss])]
      simp [RedisCache.set, idealCache, idealClient]
    have hget : RedisCache.get idealCache
        ((generateKey hash pre args kwargs, func args kwargs) :: st)
        (generateKey hash pre args kwargs) = func args kwargs := by
      simp [RedisCache.get, idealCache, idealClient]
    have hsecond : sync_wrapper idealCache hash pre ttl func args kwargs
        ((generateKey hash pre args kwargs, func args kwargs) :: st) =
        (func args kwargs, (generateKey hash pre args kwargs, func args kwargs) :: st, 0) := by
      unfold sync_wrapper
      simp [hget, hnn]
    rw [hfirst]
    exact hsecond

/-- Concrete instance of the amended C6: a miss followed by a hit for an
operation returning the number `7`. -/
theorem C6_witness :
    (RedisCache.get idealCache [] (generateKey (fun s => s) "neo4j" [] [])).isNull = true ∧
    (JValue.num 7).isNull = false ∧
    sync_wrapper idealCache (fun s => s) "neo4j" none (fun _ _ => JValue.num 7) [] []
        ((sync_wrapper idealCache (fun s => s) "neo4j" none (fun _ _ => JValue.num 7) [] []
          []).2.1) =
      (JValue.num 7, (generateKey (fun s => s) "neo4j" [] [], JValue.num 7) :: [], 0) := by
  have hmiss : (RedisCache.get idealCache []
      (generateKey (fun s => s) "neo4j" [] [])).isNull = true := rfl
  exact ⟨hmiss, rfl,
    (C6_amended_cache_wrapping (fun s => s) "neo4j" none (fun _ _ => JValue.num 7) [] []
      []).2.2.1 hmiss rfl⟩

/-- Claim C8: every cache-backend error — the layer disabled, the client
absent, or any client operation raising — degrades to pass-through:
`get` returns `None`, `set`/`delete` report `False` without raising
(modelled by their total `Bool` results, mirroring the `try/except`
blocks), and whenever `get` yields `None` (which covers every error
case) the wrapped operation still runs exactly once and its result is
returned to the caller by both wrappers, so no cache error reaches the
caller of a wrapped operation. -/
theorem C8_cache_error_passthrough :
    (∀ (σ : Type) (c : RedisCache σ) (st : σ) (key : String) (v : JValue) (ttl : Option Nat),
      c.enabled = false ∨ c.client = none →
        RedisCache.get c st key = .null ∧
        RedisCache.set c st key v ttl = (false, st) ∧
        RedisCache.delete c st key = (false, st)) ∧
    (∀ (σ : Type) (cl : RedisClient σ) (d : Nat) (st : σ) (key : String) (e : RedisError),
      cl.getC st key = .error e →
        RedisCache.get ⟨true, some cl, d⟩ st key = .null) ∧
    (∀ (σ : Type) (cl : RedisClient σ) (d : Nat) (st : σ) (key : String) (v : JValue)
        (ttl : Option Nat) (e : RedisError),
      (∀ t, cl.setexC st key t v = .error e) →
        RedisCache.set ⟨true, some cl, d⟩ st key v ttl = (false, st)) ∧
    (∀ (σ : Type) (cl : RedisClient σ) (d : Nat) (st : σ) (key : String) (e : RedisError),
      cl.delC st key = .error e →
        RedisCache.delete ⟨true, some cl, d⟩ st key = (false, st)) ∧
    (∀ (σ : Type) (c : RedisCache σ) (hash : String → String) (pre : String)
        (ttl : Option Nat) (func : List JValue → List (String × JValue) → JValue)
        (args : List JValue) (kwargs : List (String × JValue)) (st : σ),
      (RedisCache.get c st (generateKey hash pre args kwargs)).isNull = true →
        (sync_wrapper c hash pre ttl func args kwargs st).1 = func args kwargs ∧
        (sync_wrapper c hash pre ttl func args kwargs st).2.2 = 1 ∧
        async_wrapper c hash pre ttl func args kwargs st =
          sync_wrapper c hash pre ttl func args kwargs st) := by
  refine ⟨?_, ?_, ?_, ?_, ?_⟩
  · intro σ c st key v ttl h
    rcases h with h | h
    · exact ⟨by simp [RedisCache.get, h], by simp [RedisCache.set, h],
        by simp [RedisCache.delete, h]⟩
    · refine ⟨?_, ?_, ?_⟩
      · unfold RedisCache.get
        split_ifs with he
        · rfl
        · rw [h]
      · unfold RedisCache.set
        split_ifs with he
        · rfl
        · rw [h]
      · unfold RedisCache.delete
        split_ifs with he
        · rfl
        · rw [h]
  · intro σ cl d st key e h
    simp [RedisCache.get, h]
  · intro σ cl d st key v ttl e h
    simp [RedisCache.set, h]
  · intro σ cl d st key e h
    simp [RedisCache.delete, h]
  · intro σ c hash pre ttl func args kwargs st h
    refine ⟨?_, ?_, rfl⟩ <;>
      · unfold sync_wrapper
        rw [if_neg (by simp [h])]

/-- Concrete instance of C8: a client every operation of which raises,
and a disabled cache; the wrapped operation still runs and its result
comes back. -/
theorem C8_witness :
    RedisCache.get (σ := Unit)
        ⟨true, some ⟨fun _ _ => .error ⟨"down"⟩, fun _ _ _ _ => .error ⟨"down"⟩,
          fun _ _ => .error ⟨"down"⟩⟩, 36000⟩ () "k" = .null ∧
    RedisCache.set (σ := Unit)
        ⟨true, some ⟨fun _ _ => .error ⟨"down"⟩, fun _ _ _ _ => .error ⟨"down"⟩,
          fun _ _ => .error ⟨"down"⟩⟩, 36000⟩ () "k" (JValue.num 7) none = (false, ()) ∧
    RedisCache.delete (σ := Unit)
        ⟨true, some ⟨fun _ _ => .error ⟨"down"⟩, fun _ _ _ _ => .error ⟨"down"⟩,
          fun _ _ => .error ⟨"down"⟩⟩, 36000⟩ () "k" = (false, ()) ∧
    (sync_wrapper (σ := Unit)
        ⟨true, some ⟨fun _ _ => .error ⟨"down"⟩, fun _ _ _ _ => .error ⟨"down"⟩,
          fun _ _ => .error ⟨"down"⟩⟩, 36000⟩ (fun s => s) "neo4j" none
        (fun _ _ => JValue.num 7) [] [] ()).1 = JValue.num 7 ∧
    (sync_wrapper (σ := Unit)
        ⟨true, some ⟨fun _ _ => .error ⟨"down"⟩, fun _ _ _ _ => .error ⟨"down"⟩,
          fun _ _ => .error ⟨"down"⟩⟩, 36000⟩ (fun s => s) "neo4j" none
        (fun _ _ => JValue.num 7) [] [] ()).2.2 = 1 := by
  obtain ⟨h1, h2, h3, h4, h5⟩ := C8_cache_error_passthrough
  refine ⟨h2 Unit _ 36000 () "k" ⟨"down"⟩ rfl, ?_, h4 Unit _ 36000 () "k" ⟨"down"⟩ rfl, ?_, ?_⟩
  · exact h3 Unit _ 36000 () "k" (JValue.num 7) none ⟨"down"⟩ (fun t => rfl)
  · exact (h5 Unit ⟨true, some ⟨fun _ _ => .error ⟨"down"⟩, fun _ _ _ _ => .error ⟨"down"⟩,
        fun _ _ => .error ⟨"down"⟩⟩, 36000⟩ (fun s => s) "neo4j" none
        (fun _ _ => JValue.num 7) [] [] () rfl).1
  · exact (h5 Unit ⟨true, some ⟨fun _ _ => .error ⟨"down"⟩, fun _ _ _ _ => .error ⟨"down"⟩,
        fun _ _ => .error ⟨"down"⟩⟩, 36000⟩ (fun s => s) "neo4j" none
        (fun _ _ => JValue.num 7) [] [] () rfl).2.1
